import Mathlib

/-!
# Verification of the stub-generation and override-composition model

Shallow embedding of `src/factories/test-factory.ts` (the auto-mock /
partial-mock / mock-provider trio, the `TestFactory` fluent builder, and the
snapshot-name derivation of `snapshotApi`), together with proofs of the
specification claims about them.

Values flowing through the mocked member functions are modelled by an opaque
type parameter `V`.  The JavaScript value `undefined` stored in a field that
was never assigned is modelled by `Option.none`; the code's
`!== undefined` test on such a field is `Option.isSome`.  Configured values
are modelled as defined (non-`undefined`) values.
-/

/-- The result of invoking a stub function, as observed by the caller:
a synchronous return (`sync none` is the JavaScript `undefined` result),
a deferred value that resolves (`Promise.resolve`), or a deferred value
that rejects (`Promise.reject`). -/
inductive CallResult (V : Type) where
  | sync (v : Option V)
  | promiseResolved (v : V)
  | promiseRejected (e : V)
deriving DecidableEq, Repr

/-- State of the self-built fallback stub function created by
`createAutoMock` (test-factory.ts lines 598-629).  The function object `fn`
carries exactly these data fields, one per configuration operation; the
source assigns `fn.mockImplementationFn`, `fn.mockReturnValueValue`,
`fn.mockResolvedValueValue` and `fn.mockRejectedValueValue` and nothing
else (besides the constant compatibility flag `_isMockFunction = true`).
In particular the fallback keeps no record of past invocations. -/
structure FallbackStub (V : Type) where
  mockImplementationFn : Option (List V → CallResult V)
  mockReturnValueValue : Option V
  mockResolvedValueValue : Option V
  mockRejectedValueValue : Option V

/-- A freshly created fallback stub: no field has been assigned yet
(every field is `undefined`). -/
def emptyStub {V : Type} : FallbackStub V :=
  { mockImplementationFn := none
    mockReturnValueValue := none
    mockResolvedValueValue := none
    mockRejectedValueValue := none }

/-- `fn.mockReturnValue(value)` of the fallback: stores `value` in
`fn.mockReturnValueValue` and returns `fn` itself (here: the updated stub). -/
def mockReturnValue {V : Type} (s : FallbackStub V) (v : V) : FallbackStub V :=
  { s with mockReturnValueValue := some v }

/-- `fn.mockResolvedValue(value)` of the fallback: stores `value` in
`fn.mockResolvedValueValue` and returns `fn` itself. -/
def mockResolvedValue {V : Type} (s : FallbackStub V) (v : V) : FallbackStub V :=
  { s with mockResolvedValueValue := some v }

/-- `fn.mockRejectedValue(value)` of the fallback: stores `value` in
`fn.mockRejectedValueValue` and returns `fn` itself. -/
def mockRejectedValue {V : Type} (s : FallbackStub V) (v : V) : FallbackStub V :=
  { s with mockRejectedValueValue := some v }

/-- `fn.mockImplementation(impl)` of the fallback: stores `impl` in
`fn.mockImplementationFn` and returns `fn` itself. -/
def mockImplementation {V : Type} (s : FallbackStub V)
    (f : List V → CallResult V) : FallbackStub V :=
  { s with mockImplementationFn := some f }

/-- The body of the fallback function (test-factory.ts lines 598-609):
if `fn.mockImplementationFn` is set, call it with the arguments and return
its result; else if `fn.mockReturnValueValue !== undefined`, return it
synchronously; else if `fn.mockResolvedValueValue !== undefined`, return
`Promise.resolve` of it; else return `undefined`.  The body never reads
`fn.mockRejectedValueValue` and never writes any field. -/
def invoke {V : Type} (s : FallbackStub V) (args : List V) : CallResult V :=
  match s.mockImplementationFn with
  | some impl => impl args
  | none =>
    match s.mockReturnValueValue with
    | some v => CallResult.sync (some v)
    | none =>
      match s.mockResolvedValueValue with
      | some v => CallResult.promiseResolved v
      | none => CallResult.sync none

/-- The full effect of one invocation on the stub object: the result
together with the stub's state afterwards.  The source's function body
(lines 598-609) only reads the configuration fields, so the state after a
call is the state before it; the arguments are not stored anywhere. -/
def invokeStep {V : Type} (s : FallbackStub V) (args : List V) :
    CallResult V × FallbackStub V :=
  (invoke s args, s)

/-- One configuration call on a fallback stub, in the source vocabulary. -/
inductive ConfigOp (V : Type) where
  | opReturn (v : V)
  | opResolved (v : V)
  | opRejected (v : V)
  | opImpl (f : List V → CallResult V)

/-- Apply one configuration call to a stub. -/
def applyOp {V : Type} (s : FallbackStub V) : ConfigOp V → FallbackStub V
  | ConfigOp.opReturn v => mockReturnValue s v
  | ConfigOp.opResolved v => mockResolvedValue s v
  | ConfigOp.opRejected v => mockRejectedValue s v
  | ConfigOp.opImpl f => mockImplementation s f

/-- Apply a sequence of configuration calls, oldest first. -/
def applyOps {V : Type} (s : FallbackStub V) (ops : List (ConfigOp V)) :
    FallbackStub V :=
  ops.foldl applyOp s

/-- The last implementation configured in a sequence of calls, if any. -/
def lastImpl {V : Type} : List (ConfigOp V) → Option (List V → CallResult V)
  | [] => none
  | op :: rest =>
    match lastImpl rest with
    | some f => some f
    | none =>
      match op with
      | ConfigOp.opImpl f => some f
      | _ => none

/-- The last fixed return value configured in a sequence of calls, if any. -/
def lastReturn {V : Type} : List (ConfigOp V) → Option V
  | [] => none
  | op :: rest =>
    match lastReturn rest with
    | some v => some v
    | none =>
      match op with
      | ConfigOp.opReturn v => some v
      | _ => none

/-- The last fixed resolved value configured in a sequence of calls, if any. -/
def lastResolved {V : Type} : List (ConfigOp V) → Option V
  | [] => none
  | op :: rest =>
    match lastResolved rest with
    | some v => some v
    | none =>
      match op with
      | ConfigOp.opResolved v => some v
      | _ => none

/-- The configuration properties the `createAutoMock` fallback installs on
its stub functions (test-factory.ts lines 610-625): all four operations. -/
def autoFallbackOps : List String :=
  ["mockReturnValue", "mockResolvedValue", "mockRejectedValue", "mockImplementation"]

/-- The configuration properties the `createPartialMock` fallback installs
on its stub functions (test-factory.ts lines 688-695): only
`mockReturnValue` and `mockResolvedValue`. -/
def partialFallbackOps : List String :=
  ["mockReturnValue", "mockResolvedValue"]

/-!
## Member discovery (`createAutoMock`, test-factory.ts lines 564-637)

`createAutoMock` walks the prototype chain of the target class with
`while (proto && proto !== Object.prototype)`, and for each prototype
iterates over `Object.getOwnPropertyNames(proto)`.  A name is skipped when
it is `"constructor"` or already in the `seen` set; otherwise it is added
to `seen`, and a stub is installed for it exactly when its own property
descriptor has a function `value` or a getter (`descriptor.get`).

The chain is modelled as the list of prototypes the loop visits (most
derived first, `Object.prototype` excluded), each prototype as its list of
own property names in enumeration order, paired with the relevant part of
the property descriptor.  Real prototypes list each own name once; the
model resolves a (non-occurring) duplicated name to its first entry.
-/

/-- The part of a JavaScript property descriptor the discovery inspects:
whether `descriptor.value` is a function, and whether `descriptor.get`
is present. -/
structure PropDesc where
  valueIsFunction : Bool
  hasGet : Bool
deriving DecidableEq, Repr

/-- A prototype object: its own property names in enumeration order, each
with its property descriptor. -/
abbrev Proto := List (String × PropDesc)

/-- The test `typeof descriptor.value === 'function' || descriptor.get`
deciding whether a discovered member gets a stub. -/
def isMockable (d : PropDesc) : Bool :=
  d.valueIsFunction || d.hasGet

/-- One iteration of the `Object.getOwnPropertyNames(proto).forEach` loop:
given the `seen` set (modelled as a list with membership) and a prototype,
returns the grown `seen` set and the names stubbed from this prototype, in
enumeration order. -/
def protoStep : List String → Proto → List String × List String
  | seen, [] => (seen, [])
  | seen, (k, d) :: rest =>
    if k = "constructor" ∨ k ∈ seen then protoStep seen rest
    else if isMockable d then
      ((protoStep (k :: seen) rest).1, k :: (protoStep (k :: seen) rest).2)
    else protoStep (k :: seen) rest

/-- The `while (proto && proto !== Object.prototype)` loop: walk the chain,
threading the `seen` set, collecting the stubbed names in order. -/
def walkChain : List String → List Proto → List String
  | _, [] => []
  | seen, p :: ps =>
    (protoStep seen p).2 ++ walkChain (protoStep seen p).1 ps

/-- The names `createAutoMock` installs stubs under, in installation
order. -/
def discoverMembers (chain : List Proto) : List String :=
  walkChain [] chain

/-- The own property descriptor a prototype holds for a name (first entry
when the name occurs; real prototypes hold at most one). -/
def protoFind : Proto → String → Option PropDesc
  | [], _ => none
  | (k2, d) :: rest, k => if k2 = k then some d else protoFind rest k

/-- The property descriptor the prototype chain resolves a name to: the
descriptor on the most derived prototype that owns the name (shadowing). -/
def chainFind : List Proto → String → Option PropDesc
  | [], _ => none
  | p :: ps, k =>
    match protoFind p k with
    | some d => some d
    | none => chainFind ps k

/-!
## Surrogate objects and the spread merge

JavaScript objects built by the library are modelled as association lists
of own enumerable properties in insertion order; assignment `o[k] = v`
overwrites in place or appends, and the object spread `{...a, ...b}`
copies `b`'s properties onto a copy of `a` in order.
-/

/-- A JavaScript object: own enumerable properties in insertion order. -/
abbrev Obj (V : Type) := List (String × V)

/-- Property assignment `o[k] = v`: overwrite in place, else append. -/
def objSet {V : Type} (o : Obj V) (k : String) (v : V) : Obj V :=
  match o with
  | [] => [(k, v)]
  | (k2, v2) :: rest =>
    if k2 = k then (k, v) :: rest else (k2, v2) :: objSet rest k v

/-- Property lookup `o[k]` (`none` is `undefined`: no own property `k`). -/
def objLookup {V : Type} (o : Obj V) (k : String) : Option V :=
  match o with
  | [] => none
  | (k2, v) :: rest => if k2 = k then some v else objLookup rest k

/-- The object's own property names. -/
def objKeys {V : Type} (o : Obj V) : List String :=
  o.map Prod.fst

/-- The object spread `{...a, ...b}`: assign each property of `b`, in
order, onto a copy of `a`. -/
def mergeSpread {V : Type} (a b : Obj V) : Obj V :=
  b.foldl (fun acc kv => objSet acc kv.1 kv.2) a

/-- The value the last binding of `k` in `o` carries, if any (what a
sequence of assignments of `o`'s entries leaves under `k`). -/
def lastBinding {V : Type} : Obj V → String → Option V
  | [], _ => none
  | (k2, v) :: rest, k =>
    match lastBinding rest k with
    | some w => some w
    | none => if k2 = k then some v else none

/-- A value stored in a surrogate: either a library-generated fallback
stub, or an arbitrary caller-supplied substitute. -/
inductive SubVal (V : Type) where
  | stub (s : FallbackStub V)
  | custom (v : V)

/-- The surrogate `createAutoMock` builds on the fallback path: one fresh
(empty) fallback stub per discovered member, installed in discovery
order. -/
def createAutoMockObj (V : Type) (chain : List Proto) : Obj (SubVal V) :=
  (discoverMembers chain).map (fun k => (k, SubVal.stub emptyStub))

/-- The surrogate `createPartialMock` builds on the fallback path
(test-factory.ts lines 653-701): one fresh fallback stub per requested
name, assigned in request order.  The target class is received but its
shape is never consulted, and no name is rejected. -/
def createPartialMockObj (V : Type) (chain : List Proto)
    (names : List String) : Obj (SubVal V) :=
  names.foldl (fun acc n => objSet acc n (SubVal.stub emptyStub)) []

/-- The provider descriptor `createMockProvider` returns: the `provide`
key and the `useValue` surrogate. -/
structure ProviderDescriptor (T : Type) (V : Type) where
  provide : T
  useValue : Obj (SubVal V)

/-- `createMockProvider(target, customMocks)` (test-factory.ts lines
722-733): run `createAutoMock` on the target, overlay `customMocks` with
the object spread, and pair the result with the target as provider
configuration. -/
def createMockProvider {T : Type} (V : Type) (target : T)
    (chain : List Proto) (customMocks : Obj (SubVal V)) :
    ProviderDescriptor T V :=
  { provide := target
    useValue := mergeSpread (createAutoMockObj V chain) customMocks }

/-!
## The `TestFactory` fluent builder (test-factory.ts lines 23-67)

The factory's only state is `this.data`, a partial object of accumulated
overrides; entity values are opaque (`V`).  `default()` is modelled as a
fixed object (the subclass hook producing defaults).
-/

/-- The mutable state of a `TestFactory` instance: the accumulated
overrides `this.data` (initially `{}`). -/
structure FactoryState (V : Type) where
  data : Obj V

/-- `with(overrides)`: `this.data = { ...this.data, ...overrides }`. -/
def factoryWith {V : Type} (st : FactoryState V) (overrides : Obj V) :
    FactoryState V :=
  { data := mergeSpread st.data overrides }

/-- `create()`: `{ ...this.default(), ...this.data }`. -/
def factoryCreate {V : Type} (defaults : Obj V) (st : FactoryState V) :
    Obj V :=
  mergeSpread defaults st.data

/-- `createMany(count)`: `Array.from({ length: count }, ...)` runs the
callback `count` times in order; each run takes `create()` and then resets
`this.data = {}`.  Returns the produced list and the state afterwards. -/
def factoryCreateMany {V : Type} (defaults : Obj V) :
    Nat → FactoryState V → List (Obj V) × FactoryState V
  | 0, st => ([], st)
  | n + 1, st =>
    let inst := factoryCreate defaults st
    let r := factoryCreateMany defaults n { data := [] }
    (inst :: r.1, r.2)

/-- `reset()`: `this.data = {}`. -/
def factoryReset {V : Type} (_st : FactoryState V) : FactoryState V :=
  { data := [] }

/-!
## Snapshot naming (`snapshotApi`, test-factory.ts lines 401-480)

When no `snapshotName` option is passed, the snapshot key is
`` `${method}_${url.replace(/[^a-zA-Z0-9]/g, '_')}` ``.
-/

/-- A character the regex class `[^a-zA-Z0-9]` does NOT match: an ASCII
letter or digit. -/
def isAsciiAlnum (c : Char) : Bool :=
  ('a' ≤ c && c ≤ 'z') || ('A' ≤ c && c ≤ 'Z') || ('0' ≤ c && c ≤ '9')

/-- `url.replace(/[^a-zA-Z0-9]/g, '_')`: scan the string left to right,
emitting each ASCII alphanumeric character unchanged and an underscore for
every other character. -/
def regexReplaceNonAlnum (url : String) : String :=
  url.data.foldl (fun acc c => acc.push (if isAsciiAlnum c then c else '_')) ""

/-- The derived snapshot name: `method + "_" + sanitized url`. -/
def autoSnapshotName (method url : String) : String :=
  method ++ "_" ++ regexReplaceNonAlnum url

/-- The key a snapshot is recorded under: the caller-supplied
`snapshotName` when present, the derived name otherwise. -/
def snapshotKeyOf (snapshotName : Option String) (method url : String) :
    String :=
  match snapshotName with
  | some n => n
  | none => autoSnapshotName method url

/-- The claim's own description of the sanitised url, stated independently
of the replace loop: every character that is not an ASCII letter or digit
becomes an underscore, characterwise. -/
def specSanitizedUrl (url : String) : String :=
  String.mk (url.data.map (fun c => if isAsciiAlnum c then c else '_'))

section StubLemmas

variable {V : Type}

theorem applyOps_implField (s : FallbackStub V) (ops : List (ConfigOp V)) :
    (applyOps s ops).mockImplementationFn =
      match lastImpl ops with
      | some f => some f
      | none => s.mockImplementationFn := by
  induction ops generalizing s with
  | nil => rfl
  | cons op rest ih =>
    simp only [applyOps, List.foldl_cons, lastImpl] at *
    rw [ih]
    cases h : lastImpl rest with
    | some f => rfl
    | none =>
      cases op <;> rfl

theorem applyOps_returnField (s : FallbackStub V) (ops : List (ConfigOp V)) :
    (applyOps s ops).mockReturnValueValue =
      match lastReturn ops with
      | some v => some v
      | none => s.mockReturnValueValue := by
  induction ops generalizing s with
  | nil => rfl
  | cons op rest ih =>
    simp only [applyOps, List.foldl_cons, lastReturn] at *
    rw [ih]
    cases h : lastReturn rest with
    | some v => rfl
    | none =>
      cases op <;> rfl

theorem applyOps_resolvedField (s : FallbackStub V) (ops : List (ConfigOp V)) :
    (applyOps s ops).mockResolvedValueValue =
      match lastResolved ops with
      | some v => some v
      | none => s.mockResolvedValueValue := by
  induction ops generalizing s with
  | nil => rfl
  | cons op rest ih =>
    simp only [applyOps, List.foldl_cons, lastResolved] at *
    rw [ih]
    cases h : lastResolved rest with
    | some v => rfl
    | none =>
      cases op <;> rfl

end StubLemmas

section ObjLemmas

variable {V : Type}

theorem objLookup_objSet_self (o : Obj V) (k : String) (v : V) :
    objLookup (objSet o k v) k = some v := by
  induction o with
  | nil => simp [objSet, objLookup]
  | cons kv rest ih =>
    obtain ⟨k2, v2⟩ := kv
    by_cases h : k2 = k
    · subst h; simp [objSet, objLookup]
    · simp [objSet, objLookup, h, ih]

theorem objLookup_objSet_other (o : Obj V) (k : String) (v : V) (k2 : String)
    (h : k2 ≠ k) : objLookup (objSet o k v) k2 = objLookup o k2 := by
  induction o with
  | nil => simp [objSet, objLookup, Ne.symm h]
  | cons kv rest ih =>
    obtain ⟨k3, v3⟩ := kv
    by_cases h3 : k3 = k
    · subst h3
      simp [objSet, objLookup, Ne.symm h]
    · simp [objSet, objLookup, h3, ih]

theorem objLookup_eq_none_iff (o : Obj V) (k : String) :
    objLookup o k = none ↔ k ∉ objKeys o := by
  induction o with
  | nil => simp [objLookup, objKeys]
  | cons kv rest ih =>
    obtain ⟨k2, v2⟩ := kv
    simp only [objLookup, objKeys, List.map_cons, List.mem_cons]
    by_cases h : k2 = k
    · subst h
      simp
    · simp only [if_neg h]
      rw [ih]
      simp only [objKeys]
      constructor
      · intro hn
        rintro (h1 | h1)
        · exact h h1.symm
        · exact hn h1
      · intro hn hmem
        exact hn (Or.inr hmem)

theorem lastBinding_eq_none_iff (o : Obj V) (k : String) :
    lastBinding o k = none ↔ k ∉ objKeys o := by
  induction o with
  | nil => simp [lastBinding, objKeys]
  | cons kv rest ih =>
    obtain ⟨k2, v2⟩ := kv
    simp only [lastBinding, objKeys, List.map_cons, List.mem_cons]
    cases hr : lastBinding rest k with
    | some w =>
      have hk : k ∈ objKeys rest := by
        by_contra hk
        have h0 := ih.mpr hk
        rw [hr] at h0
        exact Option.noConfusion h0
      simp only [objKeys] at hk
      constructor
      · intro h0
        exact Option.noConfusion h0
      · intro hn
        exact absurd (Or.inr hk) hn
    | none =>
      have hk : k ∉ objKeys rest := ih.mp hr
      simp only [objKeys] at hk
      by_cases h : k2 = k
      · subst h
        simp
      · simp only [if_neg h]
        constructor
        · intro _
          rintro (h1 | h1)
          · exact h h1.symm
          · exact hk h1
        · intro _
          trivial

theorem mem_objKeys_iff_lookup (o : Obj V) (k : String) :
    k ∈ objKeys o ↔ objLookup o k ≠ none := by
  constructor
  · intro h hn
    exact (objLookup_eq_none_iff o k).mp hn h
  · intro h
    by_contra hk
    exact h ((objLookup_eq_none_iff o k).mpr hk)

theorem lastBinding_eq_objLookup (o : Obj V) (k : String)
    (h : (objKeys o).Nodup) : lastBinding o k = objLookup o k := by
  induction o with
  | nil => rfl
  | cons kv rest ih =>
    obtain ⟨k2, v2⟩ := kv
    simp only [objKeys, List.map_cons, List.nodup_cons] at h
    obtain ⟨hk2, hrest⟩ := h
    simp only [lastBinding, objLookup]
    by_cases hq : k2 = k
    · subst hq
      have hnone : lastBinding rest k2 = none := by
        rw [lastBinding_eq_none_iff]
        simpa [objKeys] using hk2
      rw [hnone]
      simp
    · rw [ih (by simpa [objKeys] using hrest)]
      cases objLookup rest k <;> simp [hq]

theorem objLookup_mergeSpread (b a : Obj V) (k : String) :
    objLookup (mergeSpread a b) k =
      match lastBinding b k with
      | some v => some v
      | none => objLookup a k := by
  induction b generalizing a with
  | nil => rfl
  | cons kv rest ih =>
    obtain ⟨k2, v2⟩ := kv
    have hstep : mergeSpread a ((k2, v2) :: rest) = mergeSpread (objSet a k2 v2) rest := rfl
    rw [hstep, ih]
    simp only [lastBinding]
    cases hr : lastBinding rest k with
    | some w => rfl
    | none =>
      by_cases h : k2 = k
      · subst h
        simp [objLookup_objSet_self]
      · simp [h, objLookup_objSet_other a k2 v2 k (fun hh : k = k2 => h hh.symm)]

theorem mem_objKeys_mergeSpread (b a : Obj V) (k : String) :
    k ∈ objKeys (mergeSpread a b) ↔ k ∈ objKeys a ∨ k ∈ objKeys b := by
  rw [mem_objKeys_iff_lookup, objLookup_mergeSpread]
  cases hr : lastBinding b k with
  | some w =>
    have hb : k ∈ objKeys b := by
      by_contra hk
      simp [(lastBinding_eq_none_iff b k).mpr hk] at hr
    simp [hb]
  | none =>
    have hb : k ∉ objKeys b := (lastBinding_eq_none_iff b k).mp hr
    simp [hb, mem_objKeys_iff_lookup]

theorem mem_objKeys_objSet (o : Obj V) (k : String) (v : V) (k2 : String) :
    k2 ∈ objKeys (objSet o k v) ↔ k2 = k ∨ k2 ∈ objKeys o := by
  rw [mem_objKeys_iff_lookup]
  by_cases h : k2 = k
  · subst h
    simp [objLookup_objSet_self]
  · simp [h, objLookup_objSet_other o k v k2 h, mem_objKeys_iff_lookup]

theorem objKeys_objSet_nodup (o : Obj V) (k : String) (v : V)
    (h : (objKeys o).Nodup) : (objKeys (objSet o k v)).Nodup := by
  induction o with
  | nil => simp [objSet, objKeys]
  | cons kv rest ih =>
    obtain ⟨k2, v2⟩ := kv
    simp only [objKeys, List.map_cons, List.nodup_cons] at h
    by_cases hk : k2 = k
    · subst hk
      have hgoal : objSet ((k2, v2) :: rest) k2 v = (k2, v) :: rest := by
        simp [objSet]
      rw [hgoal]
      simp only [objKeys, List.map_cons, List.nodup_cons]
      exact h
    · simp only [objSet, if_neg hk, objKeys, List.map_cons, List.nodup_cons]
      refine ⟨?_, ih h.2⟩
      intro hmem
      rcases (mem_objKeys_objSet rest k v k2).mp (by simpa [objKeys] using hmem) with h1 | h1
      · exact hk h1
      · exact h.1 (by simpa [objKeys] using h1)

theorem objLookup_foldl_setConst (names : List String) (acc : Obj V) (c : V)
    (k : String) :
    objLookup (names.foldl (fun a n => objSet a n c) acc) k =
      if k ∈ names then some c else objLookup acc k := by
  induction names generalizing acc with
  | nil => simp
  | cons n rest ih =>
    simp only [List.foldl_cons]
    rw [ih]
    by_cases h : k ∈ rest
    · simp [h]
    · by_cases h2 : k = n
      · subst h2
        simp [h, objLookup_objSet_self]
      · simp [h, h2, objLookup_objSet_other acc n c k h2]

theorem objKeys_foldl_setConst_nodup (names : List String) (acc : Obj V) (c : V)
    (h : (objKeys acc).Nodup) :
    (objKeys (names.foldl (fun a n => objSet a n c) acc)).Nodup := by
  induction names generalizing acc with
  | nil => simpa
  | cons n rest ih =>
    simp only [List.foldl_cons]
    exact ih _ (objKeys_objSet_nodup acc n c h)

theorem objKeys_map_const {W : Type} (l : List String) (c : W) :
    objKeys (l.map (fun k2 => (k2, c))) = l := by
  induction l with
  | nil => rfl
  | cons a rest ih =>
    show a :: objKeys (rest.map (fun k2 => (k2, c))) = a :: rest
    rw [ih]

theorem objLookup_map_const {W : Type} (l : List String) (c : W) (k : String) :
    objLookup (l.map (fun k2 => (k2, c))) k = if k ∈ l then some c else none := by
  induction l with
  | nil => simp [objLookup]
  | cons a rest ih =>
    by_cases h : a = k
    · subst h
      simp [objLookup]
    · simp [objLookup, h, ih, Ne.symm h]

end ObjLemmas

section DiscoveryLemmas

theorem protoFind_eq_none_iff (p : Proto) (k : String) :
    protoFind p k = none ↔ k ∉ p.map Prod.fst := by
  induction p with
  | nil => simp [protoFind]
  | cons kv rest ih =>
    obtain ⟨k2, d⟩ := kv
    simp only [protoFind, List.map_cons, List.mem_cons]
    by_cases h : k2 = k
    · subst h
      simp
    · simp only [if_neg h]
      rw [ih]
      constructor
      · intro hn
        rintro (h1 | h1)
        · exact h h1.symm
        · exact hn h1
      · intro hn hmem
        exact hn (Or.inr hmem)

theorem protoStep_skip (seen : List String) (k2 : String) (d : PropDesc)
    (rest : Proto) (hc : k2 = "constructor" ∨ k2 ∈ seen) :
    protoStep seen ((k2, d) :: rest) = protoStep seen rest := by
  simp [protoStep, hc]

theorem protoStep_take (seen : List String) (k2 : String) (d : PropDesc)
    (rest : Proto) (hc : ¬(k2 = "constructor" ∨ k2 ∈ seen))
    (hm : isMockable d = true) :
    protoStep seen ((k2, d) :: rest) =
      ((protoStep (k2 :: seen) rest).1, k2 :: (protoStep (k2 :: seen) rest).2) := by
  simp [protoStep, hc, hm]

theorem protoStep_data (seen : List String) (k2 : String) (d : PropDesc)
    (rest : Proto) (hc : ¬(k2 = "constructor" ∨ k2 ∈ seen))
    (hm : isMockable d = false) :
    protoStep seen ((k2, d) :: rest) = protoStep (k2 :: seen) rest := by
  simp [protoStep, hc, hm]

theorem protoStep_seen_mem (p : Proto) (seen : List String) (k : String) :
    k ∈ (protoStep seen p).1 ↔
      k ∈ seen ∨ (k ≠ "constructor" ∧ k ∈ p.map Prod.fst) := by
  induction p generalizing seen with
  | nil => simp [protoStep]
  | cons kv rest ih =>
    obtain ⟨k2, d⟩ := kv
    simp only [List.map_cons, List.mem_cons]
    by_cases hc : k2 = "constructor" ∨ k2 ∈ seen
    · rw [protoStep_skip seen k2 d rest hc, ih]
      constructor
      · rintro (h1 | ⟨h1, h2⟩)
        · exact Or.inl h1
        · exact Or.inr ⟨h1, Or.inr h2⟩
      · rintro (h1 | ⟨h1, h2 | h2⟩)
        · exact Or.inl h1
        · subst h2
          rcases hc with hc | hc
          · exact absurd hc h1
          · exact Or.inl hc
        · exact Or.inr ⟨h1, h2⟩
    · push_neg at hc
      obtain ⟨hc1, hc2⟩ := hc
      have hfst : (protoStep seen ((k2, d) :: rest)).1 = (protoStep (k2 :: seen) rest).1 := by
        by_cases hm : isMockable d
        · rw [protoStep_take seen k2 d rest (by push_neg; exact ⟨hc1, hc2⟩) hm]
        · rw [protoStep_data seen k2 d rest (by push_neg; exact ⟨hc1, hc2⟩)
            (by simpa using hm)]
      rw [hfst, ih]
      simp only [List.mem_cons]
      constructor
      · rintro ((h1 | h1) | ⟨h1, h2⟩)
        · subst h1
          exact Or.inr ⟨hc1, Or.inl rfl⟩
        · exact Or.inl h1
        · exact Or.inr ⟨h1, Or.inr h2⟩
      · rintro (h1 | ⟨h1, h2 | h2⟩)
        · exact Or.inl (Or.inr h1)
        · subst h2
          exact Or.inl (Or.inl rfl)
        · exact Or.inr ⟨h1, h2⟩

theorem protoStep_out_mem (p : Proto) (seen : List String) (k : String) :
    k ∈ (protoStep seen p).2 ↔
      k ∉ seen ∧ k ≠ "constructor" ∧
        ∃ d, protoFind p k = some d ∧ isMockable d = true := by
  induction p generalizing seen with
  | nil => simp [protoStep, protoFind]
  | cons kv rest ih =>
    obtain ⟨k2, d⟩ := kv
    simp only [protoFind]
    by_cases hc : k2 = "constructor" ∨ k2 ∈ seen
    · rw [protoStep_skip seen k2 d rest hc, ih]
      by_cases hk : k2 = k
      · subst hk
        constructor
        · rintro ⟨h1, h2, _⟩
          rcases hc with hc | hc
          · exact absurd hc h2
          · exact absurd hc h1
        · rintro ⟨h1, h2, _⟩
          rcases hc with hc | hc
          · exact absurd hc h2
          · exact absurd hc h1
      · simp [hk]
    · push_neg at hc
      obtain ⟨hc1, hc2⟩ := hc
      by_cases hm : isMockable d
      · rw [protoStep_take seen k2 d rest (by push_neg; exact ⟨hc1, hc2⟩) hm]
        simp only [List.mem_cons]
        rw [ih]
        by_cases hk : k2 = k
        · subst hk
          simp only [if_pos rfl]
          constructor
          · intro _
            exact ⟨hc2, hc1, d, rfl, hm⟩
          · intro _
            simp
        · simp only [if_neg hk]
          constructor
          · rintro (h1 | ⟨h1, h2, h3⟩)
            · exact absurd h1.symm hk
            · refine ⟨fun hmem => h1 (List.mem_cons_of_mem _ hmem), h2, h3⟩
          · rintro ⟨h1, h2, h3⟩
            refine Or.inr ⟨?_, h2, h3⟩
            intro hmem
            rcases List.mem_cons.mp hmem with h4 | h4
            · exact hk h4.symm
            · exact h1 h4
      · rw [protoStep_data seen k2 d rest (by push_neg; exact ⟨hc1, hc2⟩)
          (by simpa using hm)]
        rw [ih]
        by_cases hk : k2 = k
        · subst hk
          simp only [if_pos rfl]
          constructor
          · rintro ⟨h1, _, _⟩
            exact absurd (List.mem_cons_self _ _) h1
          · rintro ⟨_, _, d2, hd2, hm2⟩
            cases hd2
            exact absurd hm2 (by simpa using hm)
        · simp only [if_neg hk]
          constructor
          · rintro ⟨h1, h2, h3⟩
            refine ⟨fun hmem => h1 (List.mem_cons_of_mem _ hmem), h2, h3⟩
          · rintro ⟨h1, h2, h3⟩
            refine ⟨?_, h2, h3⟩
            intro hmem
            rcases List.mem_cons.mp hmem with h4 | h4
            · exact hk h4.symm
            · exact h1 h4

theorem protoStep_out_nodup (p : Proto) (seen : List String) :
    (protoStep seen p).2.Nodup := by
  induction p generalizing seen with
  | nil => simp [protoStep]
  | cons kv rest ih =>
    obtain ⟨k2, d⟩ := kv
    by_cases hc : k2 = "constructor" ∨ k2 ∈ seen
    · rw [protoStep_skip seen k2 d rest hc]
      exact ih seen
    · by_cases hm : isMockable d
      · rw [protoStep_take seen k2 d rest hc hm]
        simp only [List.nodup_cons]
        refine ⟨?_, ih (k2 :: seen)⟩
        intro hmem
        have h1 := (protoStep_out_mem rest (k2 :: seen) k2).mp hmem
        exact h1.1 (List.mem_cons_self _ _)
      · rw [protoStep_data seen k2 d rest hc (by simpa using hm)]
        exact ih (k2 :: seen)

theorem walkChain_mem (ch : List Proto) (seen : List String) (k : String) :
    k ∈ walkChain seen ch ↔
      k ∉ seen ∧ k ≠ "constructor" ∧
        ∃ d, chainFind ch k = some d ∧ isMockable d = true := by
  induction ch generalizing seen with
  | nil => simp [walkChain, chainFind]
  | cons p ps ih =>
    simp only [walkChain, List.mem_append]
    rw [protoStep_out_mem, ih]
    simp only [chainFind]
    cases hf : protoFind p k with
    | some d =>
      have hkeys : k ∈ p.map Prod.fst := by
        by_contra hmem
        rw [(protoFind_eq_none_iff p k).mpr hmem] at hf
        exact Option.noConfusion hf
      constructor
      · rintro (⟨h1, h2, d2, hd2, hm2⟩ | ⟨h1, h2, h3⟩)
        · have hdd : d = d2 := by injection hd2
          subst hdd
          exact ⟨h1, h2, d, rfl, hm2⟩
        · exfalso
          exact h1 ((protoStep_seen_mem p seen k).mpr (Or.inr ⟨h2, hkeys⟩))
      · rintro ⟨h1, h2, d2, hd2, hm2⟩
        have hdd : d = d2 := by injection hd2
        subst hdd
        exact Or.inl ⟨h1, h2, d, rfl, hm2⟩
    | none =>
      have hkeys : k ∉ p.map Prod.fst := (protoFind_eq_none_iff p k).mp hf
      constructor
      · rintro (⟨h1, h2, d2, hd2, hm2⟩ | ⟨h1, h2, h3⟩)
        · exact Option.noConfusion hd2
        · refine ⟨?_, h2, h3⟩
          intro hmem
          exact h1 ((protoStep_seen_mem p seen k).mpr (Or.inl hmem))
      · rintro ⟨h1, h2, h3⟩
        refine Or.inr ⟨?_, h2, h3⟩
        intro hmem
        rcases (protoStep_seen_mem p seen k).mp hmem with h4 | h4
        · exact h1 h4
        · exact hkeys h4.2

theorem walkChain_nodup (ch : List Proto) (seen : List String) :
    (walkChain seen ch).Nodup := by
  induction ch generalizing seen with
  | nil => simp [walkChain]
  | cons p ps ih =>
    simp only [walkChain]
    rw [List.nodup_append]
    refine ⟨protoStep_out_nodup p seen, ih _, ?_⟩
    intro a ha hb
    have h1 := (protoStep_out_mem p seen a).mp ha
    have h2 := (walkChain_mem ps _ a).mp hb
    apply h2.1
    rw [protoStep_seen_mem]
    refine Or.inr ⟨h1.2.1, ?_⟩
    obtain ⟨d, hd, _⟩ := h1.2.2
    by_contra hmem
    rw [(protoFind_eq_none_iff p a).mpr hmem] at hd
    exact Option.noConfusion hd

end DiscoveryLemmas

section HelperLemmas

theorem objKeys_createAutoMockObj (V : Type) (chain : List Proto) :
    objKeys (createAutoMockObj V chain) = discoverMembers chain := by
  unfold createAutoMockObj
  exact objKeys_map_const _ _

theorem objLookup_createAutoMockObj (V : Type) (chain : List Proto) (k : String) :
    objLookup (createAutoMockObj V chain) k =
      if k ∈ discoverMembers chain then some (SubVal.stub emptyStub) else none := by
  unfold createAutoMockObj
  exact objLookup_map_const _ _ _

theorem factoryCreateMany_items_reset {V : Type} (defaults : Obj V) (n : Nat) :
    (factoryCreateMany defaults n { data := [] }).1 =
      List.replicate n (factoryCreate defaults { data := [] }) := by
  induction n with
  | zero => rfl
  | succ m ih =>
    show factoryCreate defaults { data := [] } ::
        (factoryCreateMany defaults m { data := [] }).1 = _
    rw [ih, List.replicate_succ]

theorem factoryCreateMany_state {V : Type} (defaults : Obj V)
    (st : FactoryState V) (n : Nat) (h : 1 ≤ n) :
    (factoryCreateMany defaults n st).2 = { data := [] } := by
  induction n generalizing st with
  | zero => exact absurd h (by omega)
  | succ m ih =>
    show (factoryCreateMany defaults m { data := [] }).2 = { data := [] }
    cases Nat.eq_zero_or_pos m with
    | inl h0 =>
      subst h0
      rfl
    | inr h0 => exact ih { data := [] } h0

theorem foldl_push_eq_mk (g : Char → Char) (l s : List Char) :
    l.foldl (fun acc c => acc.push (g c)) (String.mk s) = String.mk (s ++ l.map g) := by
  induction l generalizing s with
  | nil => simp
  | cons c rest ih =>
    simp only [List.foldl_cons, List.map_cons]
    have hp : (String.mk s).push (g c) = String.mk (s ++ [g c]) := rfl
    rw [hp, ih]
    simp

theorem regexReplace_eq_spec (url : String) :
    regexReplaceNonAlnum url = specSanitizedUrl url := by
  unfold regexReplaceNonAlnum specSanitizedUrl
  have h := foldl_push_eq_mk (fun c => if isAsciiAlnum c then c else '_') url.data []
  simpa using h

end HelperLemmas

/-!
## Claim theorems

Each theorem settles one claim of the specification against the embedding
above.  `V := Nat` in concrete evaluations stands for an arbitrary opaque
JavaScript value domain.
-/

/-- Claim C1: the specification says that after `f.mockRejectedValue(e)`
every invocation returns a deferred value failing with `e`.  On the
self-built fallback this fails: `mockRejectedValue` stores `e` in
`mockRejectedValueValue`, but the dispatch in the function body never
reads that field (a dead store), so the invocation returns `undefined`
synchronously instead of a rejected deferred value.  This theorem
evaluates the code at the failing input. -/
theorem claim_C1_rejected_value_ignored :
    (mockRejectedValue (emptyStub (V := Nat)) 5).mockRejectedValueValue = some 5 ∧
    invoke (mockRejectedValue (emptyStub (V := Nat)) 5) [] = CallResult.sync none ∧
    invoke (mockRejectedValue (emptyStub (V := Nat)) 5) [] ≠ CallResult.promiseRejected 5 := by
  refine ⟨rfl, rfl, ?_⟩
  decide

/-- Claim C2, counterexample: with a fixed return value 1 configured first
and a fixed resolved value 2 configured afterwards (most recent), the
fallback returns the return value 1 synchronously — not, as the claim
states, a deferred value resolving to the most recently configured 2;
and a configured rejected value never produces a rejected deferred
value. -/
theorem claim_C2_counterexample :
    invoke (mockResolvedValue (mockReturnValue (emptyStub (V := Nat)) 1) 2) [] =
      CallResult.sync (some 1) ∧
    invoke (mockResolvedValue (mockReturnValue (emptyStub (V := Nat)) 1) 2) [] ≠
      CallResult.promiseResolved 2 ∧
    invoke (mockRejectedValue (emptyStub (V := Nat)) 5) [] ≠
      CallResult.promiseRejected 5 := by
  refine ⟨rfl, by decide, by decide⟩

/-- Claim C2 (amended): on the fallback path the result of an invocation
after any sequence of configuration calls is decided by a fixed dispatch
precedence, not by configuration recency: the last installed custom
implementation, if any, is invoked with the arguments; else the last
configured fixed-return value is returned synchronously; else the last
configured fixed-resolved value is returned as a successfully completing
deferred value; else `undefined` is returned synchronously.  A configured
fixed-rejected value never influences the result.  In particular a
return-value configuration followed by an implementation configuration
causes subsequent calls to use the implementation, never the stale
return value. -/
theorem claim_C2_amended_dispatch (V : Type) :
    (∀ (ops : List (ConfigOp V)) (args : List V),
      invoke (applyOps emptyStub ops) args =
        match lastImpl ops with
        | some f => f args
        | none =>
          match lastReturn ops with
          | some v => CallResult.sync (some v)
          | none =>
            match lastResolved ops with
            | some v => CallResult.promiseResolved v
            | none => CallResult.sync none) ∧
    (∀ (s : FallbackStub V) (r : V) (f : List V → CallResult V) (args : List V),
      invoke (mockImplementation (mockReturnValue s r) f) args = f args) := by
  constructor
  · intro ops args
    have h1 : (applyOps (emptyStub (V := V)) ops).mockImplementationFn = lastImpl ops := by
      rw [applyOps_implField]
      cases lastImpl ops <;> rfl
    have h2 : (applyOps (emptyStub (V := V)) ops).mockReturnValueValue = lastReturn ops := by
      rw [applyOps_returnField]
      cases lastReturn ops <;> rfl
    have h3 : (applyOps (emptyStub (V := V)) ops).mockResolvedValueValue = lastResolved ops := by
      rw [applyOps_resolvedField]
      cases lastResolved ops <;> rfl
    unfold invoke
    rw [h1, h2, h3]
  · intro s r f args
    rfl

/-- Claim C3: the specification says every invocation appends the argument
list to the stub's invocation log before computing the result.  The
fallback stub has no invocation log at all: its state consists solely of
the four configuration fields, and the function body only reads them, so
an invocation leaves the stub exactly as it was and the arguments are
discarded.  First conjunct: evaluation at the failing input (a configured
stub called with argument list `[1]` computes its result with its state
unchanged); second conjunct: no invocation ever changes any stub state. -/
theorem claim_C3_calls_not_recorded :
    invokeStep (mockReturnValue (emptyStub (V := Nat)) 7) [1] =
      (CallResult.sync (some 7), mockReturnValue (emptyStub (V := Nat)) 7) ∧
    (∀ (s : FallbackStub Nat) (args : List Nat), (invokeStep s args).2 = s) :=
  ⟨rfl, fun _ _ => rfl⟩

/-- Claim C4, counterexample: the `createPartialMock` fallback installs
only `mockReturnValue` and `mockResolvedValue` on its stubs —
`mockRejectedValue` and `mockImplementation`, both present on the
`createAutoMock` fallback stubs, are missing; and a configuration call
does not overwrite the active mode: after `mockReturnValue(1)` then
`mockResolvedValue(2)`, an invocation still returns 1 synchronously, so
the most recent configuration did not become the active mode. -/
theorem claim_C4_counterexample :
    ("mockImplementation" ∈ autoFallbackOps ∧
      "mockRejectedValue" ∈ autoFallbackOps) ∧
    ("mockImplementation" ∉ partialFallbackOps ∧
      "mockRejectedValue" ∉ partialFallbackOps) ∧
    invoke (mockResolvedValue (mockReturnValue (emptyStub (V := Nat)) 1) 2) [] =
      CallResult.sync (some 1) := by
  refine ⟨⟨by decide, by decide⟩, ⟨by decide, by decide⟩, rfl⟩

/-- Claim C4 (amended): the `createAutoMock` fallback installs all four
configuration operations while the `createPartialMock` fallback installs
only `mockReturnValue` and `mockResolvedValue`.  Each installed operation
stores its value in its own configuration slot — a repeated call to the
same operation overwrites the earlier value — and returns the same stub,
updated in place, so chained configuration calls accumulate on one stub;
the effective mode on invocation is chosen by the fixed dispatch
precedence, not by configuration recency. -/
theorem claim_C4_amended_ops (V : Type) :
    autoFallbackOps = ["mockReturnValue", "mockResolvedValue",
      "mockRejectedValue", "mockImplementation"] ∧
    partialFallbackOps = ["mockReturnValue", "mockResolvedValue"] ∧
    (∀ (s : FallbackStub V) (v w : V),
      mockReturnValue (mockReturnValue s v) w = mockReturnValue s w ∧
      mockResolvedValue (mockResolvedValue s v) w = mockResolvedValue s w ∧
      mockRejectedValue (mockRejectedValue s v) w = mockRejectedValue s w) ∧
    (∀ (s : FallbackStub V) (f g : List V → CallResult V),
      mockImplementation (mockImplementation s f) g = mockImplementation s g) ∧
    (∀ (s : FallbackStub V) (v w : V),
      (mockResolvedValue (mockReturnValue s v) w).mockReturnValueValue = some v ∧
      (mockResolvedValue (mockReturnValue s v) w).mockResolvedValueValue = some w) :=
  ⟨rfl, rfl, fun _ _ _ => ⟨rfl, rfl, rfl⟩, fun _ _ _ => rfl,
    fun _ _ _ => ⟨rfl, rfl⟩⟩

/-- Claim C5: member discovery yields each name at most once; a name is
yielded exactly when it differs from `"constructor"` and the prototype
chain (walked most-derived first, `Object.prototype` excluded) resolves
it — on the most derived prototype owning it, to the exclusion of
same-named entries further up — to a descriptor with callable or getter
semantics; and a chain without such members yields the empty surrogate
rather than an error. -/
theorem claim_C5_member_discovery (chain : List Proto) :
    (discoverMembers chain).Nodup ∧
    (∀ k, k ∈ discoverMembers chain ↔
      k ≠ "constructor" ∧ ∃ d, chainFind chain k = some d ∧ isMockable d = true) ∧
    ((∀ (k : String) (d : PropDesc), k ≠ "constructor" →
        chainFind chain k = some d → isMockable d = false) →
      discoverMembers chain = []) := by
  refine ⟨walkChain_nodup chain [], ?_, ?_⟩
  · intro k
    rw [discoverMembers, walkChain_mem]
    simp
  · intro h
    rw [discoverMembers]
    by_contra hne
    obtain ⟨k, hk⟩ := List.exists_mem_of_ne_nil _ hne
    have h2 := (walkChain_mem chain [] k).mp hk
    obtain ⟨d, hd, hm⟩ := h2.2.2
    have h3 := h k d h2.2.1 hd
    rw [hm] at h3
    exact Bool.noConfusion h3

/-- Witness for claim C5: a chain whose only prototype owns just the
constructor and one data field has no callable members, and discovery
returns the empty surrogate. -/
theorem claim_C5_witness :
    (∀ (k : String) (d : PropDesc), k ≠ "constructor" →
      chainFind [[("constructor", ⟨true, false⟩), ("x", ⟨false, false⟩)]] k = some d →
      isMockable d = false) ∧
    discoverMembers [[("constructor", ⟨true, false⟩), ("x", ⟨false, false⟩)]] = [] := by
  have h : ∀ (k : String) (d : PropDesc), k ≠ "constructor" →
      chainFind [[("constructor", ⟨true, false⟩), ("x", ⟨false, false⟩)]] k = some d →
      isMockable d = false := by
    intro k d hk hf
    simp only [chainFind, protoFind] at hf
    by_cases h1 : "constructor" = k
    · exact absurd h1.symm hk
    · rw [if_neg h1] at hf
      by_cases h2 : "x" = k
      · rw [if_pos h2] at hf
        have hdd : (⟨false, false⟩ : PropDesc) = d := by injection hf
        rw [← hdd]
        rfl
      · rw [if_neg h2] at hf
        exact Option.noConfusion hf
  exact ⟨h, (claim_C5_member_discovery _).2.2 h⟩

/-- Claim C6: `createMockProvider` pairs the target (as `provide`) with a
surrogate whose key set is the union of `createAutoMock`'s keys and the
custom-mock keys; a key present in the custom mocks maps to exactly the
caller-supplied value, and every other key maps to the auto-generated
fresh fallback stub. -/
theorem claim_C6_mock_provider {T : Type} (V : Type) (target : T)
    (chain : List Proto) (customMocks : Obj (SubVal V))
    (hnd : (objKeys customMocks).Nodup) :
    (createMockProvider V target chain customMocks).provide = target ∧
    objKeys (createAutoMockObj V chain) = discoverMembers chain ∧
    (∀ k, k ∈ objKeys (createMockProvider V target chain customMocks).useValue ↔
      k ∈ objKeys (createAutoMockObj V chain) ∨ k ∈ objKeys customMocks) ∧
    (∀ k v, objLookup customMocks k = some v →
      objLookup (createMockProvider V target chain customMocks).useValue k = some v) ∧
    (∀ k, k ∉ objKeys customMocks →
      objLookup (createMockProvider V target chain customMocks).useValue k =
        objLookup (createAutoMockObj V chain) k) ∧
    (∀ k, k ∈ objKeys (createAutoMockObj V chain) → k ∉ objKeys customMocks →
      objLookup (createMockProvider V target chain customMocks).useValue k =
        some (SubVal.stub emptyStub)) := by
  have huv : (createMockProvider V target chain customMocks).useValue =
      mergeSpread (createAutoMockObj V chain) customMocks := rfl
  refine ⟨rfl, objKeys_createAutoMockObj V chain, ?_, ?_, ?_, ?_⟩
  · intro k
    rw [huv]
    exact mem_objKeys_mergeSpread customMocks (createAutoMockObj V chain) k
  · intro k v hv
    rw [huv, objLookup_mergeSpread, lastBinding_eq_objLookup customMocks k hnd, hv]
  · intro k hk
    rw [huv, objLookup_mergeSpread, (lastBinding_eq_none_iff customMocks k).mpr hk]
  · intro k hk1 hk2
    rw [huv, objLookup_mergeSpread, (lastBinding_eq_none_iff customMocks k).mpr hk2]
    rw [objKeys_createAutoMockObj] at hk1
    rw [objLookup_createAutoMockObj, if_pos hk1]

/-- Witness for claim C6: a two-method class with one custom override;
the provider keeps the target as `provide` key and the overridden member
maps to exactly the caller-supplied value. -/
theorem claim_C6_witness :
    (objKeys ([("b", SubVal.custom (5 : Nat))] : Obj (SubVal Nat))).Nodup ∧
    (createMockProvider Nat (0 : Nat)
      [[("a", ⟨true, false⟩), ("b", ⟨true, false⟩)]]
      [("b", SubVal.custom 5)]).provide = 0 ∧
    objLookup (createMockProvider Nat (0 : Nat)
      [[("a", ⟨true, false⟩), ("b", ⟨true, false⟩)]]
      [("b", SubVal.custom 5)]).useValue "b" = some (SubVal.custom 5) := by
  have hnd : (objKeys ([("b", SubVal.custom (5 : Nat))] : Obj (SubVal Nat))).Nodup := by
    simp [objKeys]
  have hc := claim_C6_mock_provider Nat (0 : Nat)
    [[("a", ⟨true, false⟩), ("b", ⟨true, false⟩)]] [("b", SubVal.custom 5)] hnd
  exact ⟨hnd, hc.1, hc.2.2.2.1 "b" (SubVal.custom 5) rfl⟩

/-- Claim C7: `createPartialMock` yields a surrogate with exactly one
fresh stub per requested name and no other keys, entirely independently
of the target's real shape (the prototype chain is never consulted), and
never raises an error for a name with no corresponding real member. -/
theorem claim_C7_partial_mock (V : Type) (chain : List Proto)
    (names : List String) :
    (∀ chain2, createPartialMockObj V chain names = createPartialMockObj V chain2 names) ∧
    (objKeys (createPartialMockObj V chain names)).Nodup ∧
    (∀ k, k ∈ objKeys (createPartialMockObj V chain names) ↔ k ∈ names) ∧
    (∀ k, k ∈ names →
      objLookup (createPartialMockObj V chain names) k = some (SubVal.stub emptyStub)) ∧
    (∀ k, k ∉ names → objLookup (createPartialMockObj V chain names) k = none) := by
  refine ⟨fun _ => rfl, ?_, ?_, ?_, ?_⟩
  · exact objKeys_foldl_setConst_nodup names [] _ (by simp [objKeys])
  · intro k
    rw [mem_objKeys_iff_lookup]
    unfold createPartialMockObj
    rw [objLookup_foldl_setConst]
    by_cases h : k ∈ names
    · simp [h]
    · simp [h, objLookup]
  · intro k h
    unfold createPartialMockObj
    rw [objLookup_foldl_setConst, if_pos h]
  · intro k h
    unfold createPartialMockObj
    rw [objLookup_foldl_setConst, if_neg h]
    rfl

/-- Witness for claim C7: requesting `["a", "b"]` on an empty chain (no
real members at all) still yields a stub under `"a"`. -/
theorem claim_C7_witness :
    ("a" ∈ (["a", "b"] : List String)) ∧
    objLookup (createPartialMockObj Nat [] ["a", "b"]) "a" =
      some (SubVal.stub emptyStub) := by
  have h : "a" ∈ (["a", "b"] : List String) := by decide
  exact ⟨h, (claim_C7_partial_mock Nat [] ["a", "b"]).2.2.2.1 "a" h⟩

/-- Claim C8: for `count ≥ 1`, `createMany(count)` returns exactly
`count` items; the first is built like `create()` from the current
accumulated overrides, and every later item is built from defaults with
the overrides reset, because `this.data` is cleared after each
repetition. -/
theorem claim_C8_createMany (V : Type) (defaults : Obj V)
    (st : FactoryState V) (count : Nat) (h : 1 ≤ count) :
    (factoryCreateMany defaults count st).1.length = count ∧
    (factoryCreateMany defaults count st).1 =
      factoryCreate defaults st ::
        List.replicate (count - 1) (factoryCreate defaults { data := [] }) := by
  obtain ⟨m, rfl⟩ : ∃ m, count = m + 1 := ⟨count - 1, by omega⟩
  constructor
  · show (factoryCreate defaults st ::
        (factoryCreateMany defaults m { data := [] }).1).length = m + 1
    rw [List.length_cons, factoryCreateMany_items_reset, List.length_replicate]
  · show factoryCreate defaults st ::
        (factoryCreateMany defaults m { data := [] }).1 = _
    rw [factoryCreateMany_items_reset, Nat.add_sub_cancel]

/-- Witness for claim C8 at `count = 2`: the first item carries the
pending override, the second is pure defaults. -/
theorem claim_C8_witness :
    1 ≤ 2 ∧
    (factoryCreateMany [("a", (0 : Nat))] 2 { data := [("b", 1)] }).1 =
      factoryCreate [("a", 0)] { data := [("b", 1)] } ::
        List.replicate 1 (factoryCreate [("a", 0)] { data := [] }) :=
  ⟨by omega,
    (claim_C8_createMany Nat [("a", 0)] { data := [("b", 1)] } 2 (by omega)).2⟩

/-- Claim C9: when `snapshotApi` is called without an explicit snapshot
name, the snapshot key is the method, an underscore, and the url with
every character that is not an ASCII letter or digit replaced by an
underscore; in particular a GET of `/users/7` is keyed `GET__users_7`. -/
theorem claim_C9_snapshot_name :
    (∀ method url, snapshotKeyOf none method url =
      method ++ "_" ++ specSanitizedUrl url) ∧
    snapshotKeyOf none "GET" "/users/7" = "GET__users_7" := by
  constructor
  · intro method url
    show autoSnapshotName method url = _
    unfold autoSnapshotName
    rw [regexReplace_eq_spec]
  · rfl

/-- Claim C10: `createMany(0)` returns the empty list and leaves the
accumulated overrides untouched (the per-iteration reset never runs), so
a later `create()` still applies them; after `createMany(count)` with
`count ≥ 1` the overrides are empty and a later `create()` yields pure
defaults. -/
theorem claim_C10_createMany_zero (V : Type) (defaults : Obj V)
    (st : FactoryState V) :
    factoryCreateMany defaults 0 st = ([], st) ∧
    factoryCreate defaults (factoryCreateMany defaults 0 st).2 =
      mergeSpread defaults st.data ∧
    (∀ count, 1 ≤ count →
      (factoryCreateMany defaults count st).2 = { data := [] } ∧
      factoryCreate defaults (factoryCreateMany defaults count st).2 = defaults) := by
  refine ⟨rfl, rfl, ?_⟩
  intro count h
  have h2 := factoryCreateMany_state defaults st count h
  refine ⟨h2, ?_⟩
  rw [h2]
  rfl

/-- Witness for claim C10: with a pending override, `createMany 0`
returns the empty list with the override intact, and `createMany 1`
leaves the override store empty. -/
theorem claim_C10_witness :
    1 ≤ 1 ∧
    factoryCreateMany [("a", (0 : Nat))] 0 { data := [("b", 1)] } =
      ([], { data := [("b", 1)] }) ∧
    (factoryCreateMany [("a", (0 : Nat))] 1 { data := [("b", 1)] }).2 =
      { data := [] } := by
  have hc := claim_C10_createMany_zero Nat [("a", 0)] { data := [("b", 1)] }
  exact ⟨by omega, hc.1, (hc.2.2 1 (by omega)).1⟩
